import Mathlib

/-
Verification of libxnd's validity-bitmap core (src/libxnd/bitmaps.c).

Shallow embedding conventions:
* The type descriptor (external collaborator `ndt_t` from ndtypes) is modelled
  by the inductive `Ndt`, following the capability set the spec lists in §6:
  category tag, is-optional flag, subtree-has-optional, FixedDim shape,
  VarDim cumulative offsets, Tuple/Record ordered field types.  `Other` stands
  for every remaining tag (the C switch `default:`).
* Memory is modelled by `AllocState`: a counter handing out fresh allocation
  ids plus the multiset of currently live ids.  `ndt_calloc` consults an
  oracle `Nat → Bool` telling whether the i-th allocation attempt succeeds;
  `ndt_free` erases a live id.  Allocation contents are modelled directly in
  the `Bitmap` structure (byte lists for leaf buffers, child lists for node
  arrays); C pointers become the ids so that “live allocation” is observable.
* `xnd_bitmap_t { uint8_t *data; int64_t size; xnd_bitmap_t *next; }` becomes
  `Bitmap`: `data` is `Option (id × bytes)`, `next` is
  `Option (id × children)`, `size` stays a number (int64 values in this file
  are all non-negative, so `Nat` is used).
* A C function returning `-1`/`0` and mutating its `xnd_bitmap_t *b` argument
  becomes a pure function returning `Except Bitmap Bitmap × AllocState`:
  `.ok b'` is the successful out-state of `*b`, `.error bf` is the out-state
  of `*b` after the failure path ran (`bitmap_init` is only ever called on a
  fresh all-zero node — it asserts `data == NULL && size == 0 && next == NULL`
  — so the in-state needs no parameter).
-/

/-- Model of the external ndtypes descriptor (spec §3/§6): categories
`FixedDim`, `VarDim`, `Tuple`, `Record`, `Scalar`, other; every node carries
its own is-optional flag. -/
inductive Ndt : Type where
  | FixedDim (opt : Bool) (shape : Nat) (typ : Ndt)
  | VarDim (opt : Bool) (offsets : List Nat) (typ : Ndt)
  | Tuple (opt : Bool) (types : List Ndt)
  | Record (opt : Bool) (types : List Ndt)
  | Scalar (opt : Bool)
  | Other (opt : Bool)

/-- `t->ndim`: number of leading dimensions; only compared with 0 in bitmaps.c. -/
def Ndt.ndim : Ndt → Nat
  | .FixedDim _ _ typ => 1 + typ.ndim
  | .VarDim _ _ typ => 1 + typ.ndim
  | .Tuple _ _ => 0
  | .Record _ _ => 0
  | .Scalar _ => 0
  | .Other _ => 0

/-- `ndt_is_optional(t)`: the node's own optionality flag. -/
def ndt_is_optional : Ndt → Bool
  | .FixedDim opt _ _ => opt
  | .VarDim opt _ _ => opt
  | .Tuple opt _ => opt
  | .Record opt _ => opt
  | .Scalar opt => opt
  | .Other opt => opt

mutual
/-- `ndt_subtree_is_optional(t)`: this node or anything nested beneath it is
optional (spec §6). -/
def ndt_subtree_is_optional : Ndt → Bool
  | .FixedDim opt _ typ => opt || ndt_subtree_is_optional typ
  | .VarDim opt _ typ => opt || ndt_subtree_is_optional typ
  | .Tuple opt types => opt || anySubtreeOptional types
  | .Record opt types => opt || anySubtreeOptional types
  | .Scalar opt => opt
  | .Other opt => opt

/-- Disjunction of `ndt_subtree_is_optional` over a field list. -/
def anySubtreeOptional : List Ndt → Bool
  | [] => false
  | t :: ts => ndt_subtree_is_optional t || anySubtreeOptional ts
end

/-- `ndt_dtype(t)`: the dtype reached after stripping all leading dimensions. -/
def ndt_dtype : Ndt → Ndt
  | .FixedDim _ _ typ => ndt_dtype typ
  | .VarDim _ _ typ => ndt_dtype typ
  | .Tuple opt types => .Tuple opt types
  | .Record opt types => .Record opt types
  | .Scalar opt => .Scalar opt
  | .Other opt => .Other opt

/-- Allocator state: `ctr` hands out fresh allocation ids, `live` is the
multiset of ids not yet freed. -/
structure AllocState where
  ctr : Nat
  live : Multiset Nat

/-- `ndt_calloc` (allocation primitive, spec §4.2/§4.3): the oracle decides
whether the attempt with the current id succeeds; on success the id becomes
live and the counter advances. -/
def ndt_calloc (o : Nat → Bool) (s : AllocState) : Option Nat × AllocState :=
  if o s.ctr then (some s.ctr, ⟨s.ctr + 1, s.ctr ::ₘ s.live⟩) else (none, s)

/-- `ndt_free`: removes one live allocation. -/
def ndt_free (id : Nat) (s : AllocState) : AllocState :=
  ⟨s.ctr, s.live.erase id⟩

/-- `bitmap_size(nelem) = (nelem + 7) / 8` (bitmaps.c lines 42-46). -/
def bitmap_size (nelem : Nat) : Nat :=
  (nelem + 7) / 8

/-- `bits_new(n)` (bitmaps.c lines 48-59): a zero-filled buffer of
`bitmap_size n` bytes, or an allocation failure. -/
def bits_new (o : Nat → Bool) (n : Nat) (s : AllocState) :
    Option (Nat × List Nat) × AllocState :=
  match ndt_calloc o s with
  | (none, s1) => (none, s1)
  | (some id, s1) => (some (id, List.replicate (bitmap_size n) 0), s1)

/-- `xnd_bitmap_t`: leaf buffer (allocation id and bytes), `size`, child
array (allocation id and children). -/
inductive Bitmap : Type where
  | mk (data : Option (Nat × List Nat)) (size : Nat) (next : Option (Nat × List Bitmap))

/-- The `data` field. -/
def Bitmap.data : Bitmap → Option (Nat × List Nat)
  | .mk d _ _ => d

/-- The `size` field. -/
def Bitmap.size : Bitmap → Nat
  | .mk _ sz _ => sz

/-- The `next` field. -/
def Bitmap.next : Bitmap → Option (Nat × List Bitmap)
  | .mk _ _ nx => nx

/-- A fresh (all-zero) bitmap node: `data = NULL, size = 0, next = NULL`. -/
def emptyBitmap : Bitmap := .mk none 0 none

/-- `bitmap_array_new(n)` (bitmaps.c lines 61-72): a zeroed array of `n`
fresh nodes, or an allocation failure. -/
def bitmap_array_new (o : Nat → Bool) (n : Nat) (s : AllocState) :
    Option (Nat × List Bitmap) × AllocState :=
  match ndt_calloc o s with
  | (none, s1) => (none, s1)
  | (some id, s1) => (some (id, List.replicate n emptyBitmap), s1)

/-- The allocation id held by a `data` field (empty when `data = NULL`). -/
def dataIds : Option (Nat × List Nat) → Multiset Nat
  | none => 0
  | some (id, _) => {id}

mutual
/-- The allocation ids owned by a bitmap tree (its leaf buffer, its child
array, and those of all descendants). -/
def Bitmap.allocIds : Bitmap → Multiset Nat
  | .mk d _ nx =>
    dataIds d +
    (match nx with
     | none => 0
     | some (id, cs) => id ::ₘ allocIdsList cs)

/-- `allocIds` summed over a child list. -/
def allocIdsList : List Bitmap → Multiset Nat
  | [] => 0
  | c :: cs => c.allocIds + allocIdsList cs
end

mutual
/-- `xnd_bitmap_clear(b)` (bitmaps.c lines 172-188): frees the leaf buffer
(no-op when absent), sets `data = NULL`; when a child array is present,
recursively clears every child, frees the array, sets `next = NULL`.
The `size` field is not touched by the C code.  Returns the out-state of the
node and the allocator state. -/
def xnd_bitmap_clear : Bitmap → AllocState → Bitmap × AllocState
  | .mk d sz nx, s =>
    let s1 : AllocState :=
      match d with
      | none => s
      | some (id, _) => ndt_free id s
    match nx with
    | none => (.mk none sz none, s1)
    | some (id, cs) => (.mk none sz none, ndt_free id (clearList cs s1))

/-- The loop `for (i = 0; i < b->size; i++) xnd_bitmap_clear(b->next + i)`. -/
def clearList : List Bitmap → AllocState → AllocState
  | [], s => s
  | c :: cs, s => clearList cs (xnd_bitmap_clear c s).2
end

theorem sizeOf_ndt_dtype_le : (t : Ndt) → sizeOf (ndt_dtype t) ≤ sizeOf t
  | .FixedDim opt shape typ => by
    have h := sizeOf_ndt_dtype_le typ
    simp only [ndt_dtype, Ndt.FixedDim.sizeOf_spec]
    omega
  | .VarDim opt offsets typ => by
    have h := sizeOf_ndt_dtype_le typ
    simp only [ndt_dtype, Ndt.VarDim.sizeOf_spec]
    omega
  | .Tuple opt types => by simp [ndt_dtype]
  | .Record opt types => by simp [ndt_dtype]
  | .Scalar opt => by simp [ndt_dtype]
  | .Other opt => by simp [ndt_dtype]

mutual
/-- `bitmap_init(b, t, nitems, ctx)` (bitmaps.c lines 74-164), specialized by
tag.  The function asserts that `b` is fresh (`data == NULL && size == 0 &&
next == NULL`), so the in-state of `*b` is implicit; the result carries the
out-state of `*b` (`.ok` for return 0, `.error` for return -1).  The leading
`if (t->ndim == 0 && ndt_is_optional(t))` fires exactly for the four tags
with `ndim = 0`; for `Scalar`/`Other` (switch default) the subsequent
`ndt_subtree_is_optional` test equals the optionality flag itself. -/
def bitmap_init (o : Nat → Bool) (t : Ndt) (nitems : Nat) (s : AllocState) :
    Except Bitmap Bitmap × AllocState :=
  match t with
  | .FixedDim opt shape typ =>
    -- ndim != 0, so no leaf-buffer allocation at this level
    if ndt_subtree_is_optional (.FixedDim opt shape typ) then
      -- case FixedDim: return bitmap_init(b, t->FixedDim.type, nitems * shape, ctx)
      bitmap_init o typ (nitems * shape) s
    else
      (.ok emptyBitmap, s)
  | .VarDim opt offsets typ =>
    if ndt_subtree_is_optional (.VarDim opt offsets typ) then
      -- case VarDim: n = t->Concrete.VarDim.offsets[noffsets-1];
      -- return bitmap_init(b, ndt_dtype(t), n, ctx)
      -- (ndt_dtype of the VarDim node equals ndt_dtype of its element type)
      have _hsz : sizeOf (ndt_dtype typ) ≤ sizeOf typ := sizeOf_ndt_dtype_le typ
      bitmap_init o (ndt_dtype typ) (offsets.getLastD 0) s
    else
      (.ok emptyBitmap, s)
  | .Scalar opt =>
    if opt then
      match bits_new o nitems s with
      | (none, s1) => (.error emptyBitmap, s1)
      | (some db, s1) => (.ok (.mk (some db) 0 none), s1)
    else
      (.ok emptyBitmap, s)
  | .Other opt =>
    if opt then
      match bits_new o nitems s with
      | (none, s1) => (.error emptyBitmap, s1)
      | (some db, s1) => (.ok (.mk (some db) 0 none), s1)
    else
      (.ok emptyBitmap, s)
  | .Tuple opt types =>
    if opt then
      match bits_new o nitems s with
      | (none, s1) => (.error emptyBitmap, s1)
      | (some db, s1) =>
        -- optional implies subtree-has-optional, so `return 0` is not taken
        tuple_body o types nitems (some db) s1
    else
      if ndt_subtree_is_optional (.Tuple opt types) then
        tuple_body o types nitems none s
      else
        (.ok emptyBitmap, s)
  | .Record opt types =>
    if opt then
      match bits_new o nitems s with
      | (none, s1) => (.error emptyBitmap, s1)
      | (some db, s1) =>
        record_body o types nitems (some db) s1
    else
      if ndt_subtree_is_optional (.Record opt types) then
        record_body o types nitems none s
      else
        (.ok emptyBitmap, s)
termination_by (sizeOf t, 3, 0)

/-- `case Tuple` of bitmap_init (bitmaps.c lines 113-135): allocate a child
array of `nitems * shape` nodes, set `b->size`, run the nested loops; on any
failure clear `b` (which releases the buffer in `data`, every child built so
far, and the array) and return -1.  `dataF` is the current `b->data`. -/
def tuple_body (o : Nat → Bool) (types : List Ndt) (nitems : Nat)
    (dataF : Option (Nat × List Nat)) (s : AllocState) :
    Except Bitmap Bitmap × AllocState :=
  match bitmap_array_new o (nitems * types.length) s with
  | (none, s1) =>
    -- b->next = NULL, b->size still 0: xnd_bitmap_clear(b); return -1
    ((Except.error (xnd_bitmap_clear (Bitmap.mk dataF 0 none) s1).1),
     (xnd_bitmap_clear (Bitmap.mk dataF 0 none) s1).2)
  | (some (id, _), s1) =>
    -- b->size = n; slots not yet visited by the loop stay fresh (calloc'd)
    match init_reps o types nitems s1 with
    | (.ok cs, s2) =>
      (.ok (.mk dataF (nitems * types.length) (some (id, cs))), s2)
    | (.error part, s2) =>
      ((Except.error (xnd_bitmap_clear (Bitmap.mk dataF (nitems * types.length)
          (some (id, part ++ List.replicate (nitems * types.length - part.length) emptyBitmap))) s2).1),
       (xnd_bitmap_clear (Bitmap.mk dataF (nitems * types.length)
          (some (id, part ++ List.replicate (nitems * types.length - part.length) emptyBitmap))) s2).2)
termination_by (sizeOf types, 2, 0)

/-- `case Record` of bitmap_init (bitmaps.c lines 137-159): token-for-token
identical to the Tuple case apart from the struct field names. -/
def record_body (o : Nat → Bool) (types : List Ndt) (nitems : Nat)
    (dataF : Option (Nat × List Nat)) (s : AllocState) :
    Except Bitmap Bitmap × AllocState :=
  match bitmap_array_new o (nitems * types.length) s with
  | (none, s1) =>
    ((Except.error (xnd_bitmap_clear (Bitmap.mk dataF 0 none) s1).1),
     (xnd_bitmap_clear (Bitmap.mk dataF 0 none) s1).2)
  | (some (id, _), s1) =>
    match init_reps o types nitems s1 with
    | (.ok cs, s2) =>
      (.ok (.mk dataF (nitems * types.length) (some (id, cs))), s2)
    | (.error part, s2) =>
      ((Except.error (xnd_bitmap_clear (Bitmap.mk dataF (nitems * types.length)
          (some (id, part ++ List.replicate (nitems * types.length - part.length) emptyBitmap))) s2).1),
       (xnd_bitmap_clear (Bitmap.mk dataF (nitems * types.length)
          (some (id, part ++ List.replicate (nitems * types.length - part.length) emptyBitmap))) s2).2)
termination_by (sizeOf types, 2, 0)

/-- The outer loop `for (i = 0; i < nitems; i++)`: one row of children per
repetition, in order; `.error` carries the children built before the failure
(the failing child's own slot was already cleared by its recursive call). -/
def init_reps (o : Nat → Bool) (types : List Ndt) (reps : Nat) (s : AllocState) :
    Except (List Bitmap) (List Bitmap) × AllocState :=
  match reps with
  | 0 => (.ok [], s)
  | r + 1 =>
    match init_fields o types s with
    | (.error part, s1) => (.error part, s1)
    | (.ok row, s1) =>
      match init_reps o types r s1 with
      | (.error part, s2) => (.error (row ++ part), s2)
      | (.ok rest, s2) => (.ok (row ++ rest), s2)
termination_by (sizeOf types, 1, reps)

/-- The inner loop `for (k = 0; k < shape; k++)`: one child per field type,
built with `nitems = 1`. -/
def init_fields (o : Nat → Bool) (types : List Ndt) (s : AllocState) :
    Except (List Bitmap) (List Bitmap) × AllocState :=
  match types with
  | [] => (.ok [], s)
  | ty :: tys =>
    match bitmap_init o ty 1 s with
    | (.error bf, s1) => (.error [bf], s1)
    | (.ok c, s1) =>
      match init_fields o tys s1 with
      | (.error part, s2) => (.error (c :: part), s2)
      | (.ok row, s2) => (.ok (c :: row), s2)
termination_by (sizeOf types, 0, 0)
end

/-- `xnd_bitmap_init(b, t, ctx)` (bitmaps.c lines 166-170): the top-level
build entry point, `nitems = 1`. -/
def xnd_bitmap_init (o : Nat → Bool) (t : Ndt) (s : AllocState) :
    Except Bitmap Bitmap × AllocState :=
  bitmap_init o t 1 s

/-- The fields of `xnd_t` that the accessors read (bitmaps.c lines 190-232):
the type at the resolved position, the flattened index within its repetition
group, and the responsible bitmap node. -/
structure Xnd where
  type : Ndt
  index : Nat
  bitmap : Bitmap

/-- The byte list of the node's leaf buffer (`x->bitmap.data`); the accessors
only dereference it under their stated preconditions, so the `none` case
(which is undefined behavior in C) is given the harmless default `[]`. -/
def Bitmap.bytes (b : Bitmap) : List Nat :=
  match b.data with
  | none => []
  | some (_, bs) => bs

/-- `xnd_set_valid(x)` (bitmaps.c lines 190-200):
`x->bitmap.data[n / 8] |= (1 << (n % 8))` under the asserted preconditions
that the type is optional and the index is non-negative. -/
def xnd_set_valid (x : Xnd) : Xnd :=
  match x.bitmap with
  | .mk d sz nx =>
    ⟨x.type, x.index,
      .mk (d.map (fun p => (p.1,
        p.2.set (x.index / 8)
          ((p.2.getD (x.index / 8) 0) ||| (1 <<< (x.index % 8)))))) sz nx⟩

/-- `_xnd_is_valid(x)` (bitmaps.c lines 202-212): the C function returns the
masked byte `x->bitmap.data[n / 8] & (1 << (n % 8))` as an int; its callers
use it for truth value only, so the model returns whether it is non-zero. -/
def _xnd_is_valid (x : Xnd) : Bool :=
  ((x.bitmap.bytes.getD (x.index / 8) 0) &&& (1 <<< (x.index % 8))) != 0

/-- `xnd_is_valid(x)` (bitmaps.c lines 214-222). -/
def xnd_is_valid (x : Xnd) : Bool :=
  if !ndt_is_optional x.type then true else _xnd_is_valid x

/-- `xnd_is_na(x)` (bitmaps.c lines 224-232). -/
def xnd_is_na (x : Xnd) : Bool :=
  if !ndt_is_optional x.type then false else !_xnd_is_valid x

/-- A sequence of `xnd_set_valid` calls against the same bitmap node at the
positions listed in `js`. -/
def setValidSeq (t : Ndt) (b : Bitmap) (js : List Nat) : Bitmap :=
  js.foldl (fun bb j => (xnd_set_valid ⟨t, j, bb⟩).bitmap) b

theorem ndt_is_optional_imp_subtree (t : Ndt) (h : ndt_is_optional t = true) :
    ndt_subtree_is_optional t = true := by
  cases t <;> simp_all [ndt_is_optional, ndt_subtree_is_optional]

theorem ndt_dtype_idem : (t : Ndt) → ndt_dtype (ndt_dtype t) = ndt_dtype t
  | .FixedDim _ _ typ => ndt_dtype_idem typ
  | .VarDim _ _ typ => ndt_dtype_idem typ
  | .Tuple _ _ => rfl
  | .Record _ _ => rfl
  | .Scalar _ => rfl
  | .Other _ => rfl

theorem ndt_subtree_dtype_false : (t : Ndt) → ndt_subtree_is_optional t = false →
    ndt_subtree_is_optional (ndt_dtype t) = false
  | .FixedDim opt shape typ, h => by
    simp only [ndt_subtree_is_optional, Bool.or_eq_false_iff] at h
    simpa only [ndt_dtype] using ndt_subtree_dtype_false typ h.2
  | .VarDim opt offsets typ, h => by
    simp only [ndt_subtree_is_optional, Bool.or_eq_false_iff] at h
    simpa only [ndt_dtype] using ndt_subtree_dtype_false typ h.2
  | .Tuple _ _, h => h
  | .Record _ _, h => h
  | .Scalar _, h => h
  | .Other _, h => h

theorem allocIdsList_append (xs ys : List Bitmap) :
    allocIdsList (xs ++ ys) = allocIdsList xs + allocIdsList ys := by
  induction xs with
  | nil => simp [allocIdsList]
  | cons c cs ih => simp [allocIdsList, ih, add_assoc]

theorem allocIds_emptyBitmap : emptyBitmap.allocIds = 0 := by
  simp [emptyBitmap, Bitmap.allocIds, dataIds]

theorem allocIdsList_replicate (k : Nat) :
    allocIdsList (List.replicate k emptyBitmap) = 0 := by
  induction k with
  | zero => simp [allocIdsList]
  | succ n ih => simp [List.replicate_succ, allocIdsList, ih, allocIds_emptyBitmap]

theorem ndt_free_live (i : Nat) (s : AllocState) : (ndt_free i s).live = s.live - {i} := by
  simp [ndt_free]

theorem ndt_free_ctr (i : Nat) (s : AllocState) : (ndt_free i s).ctr = s.ctr := rfl

mutual
/-- Destructor accounting: the node comes back with `data` and `next` cleared
(`size` untouched), the id counter is unchanged, and exactly the tree's
allocations disappear from the live multiset. -/
theorem xnd_bitmap_clear_spec : (b : Bitmap) → (s : AllocState) →
    (xnd_bitmap_clear b s).1 = Bitmap.mk none b.size none ∧
    (xnd_bitmap_clear b s).2.ctr = s.ctr ∧
    (xnd_bitmap_clear b s).2.live = s.live - b.allocIds
  | .mk d sz nx, s => by
    cases d with
    | none =>
      cases nx with
      | none => simp [xnd_bitmap_clear, Bitmap.allocIds, Bitmap.size, dataIds, ndt_free]
      | some p =>
        obtain ⟨id2, cs⟩ := p
        have h := clearList_spec cs s
        have hL : (xnd_bitmap_clear (Bitmap.mk none sz (some (id2, cs))) s).2
            = ndt_free id2 (clearList cs s) := by
          simp [xnd_bitmap_clear]
        refine ⟨by simp [xnd_bitmap_clear, Bitmap.size],
          by rw [hL, ndt_free_ctr, h.1], ?_⟩
        rw [hL, ndt_free_live, h.2, tsub_tsub]
        simp only [Bitmap.allocIds, dataIds, zero_add]
        congr 1
        rw [add_comm, Multiset.singleton_add]
    | some p =>
      obtain ⟨id, bs⟩ := p
      cases nx with
      | none =>
        simp [xnd_bitmap_clear, Bitmap.allocIds, Bitmap.size, dataIds, ndt_free]
      | some q =>
        obtain ⟨id2, cs⟩ := q
        have h := clearList_spec cs (ndt_free id s)
        have hL : (xnd_bitmap_clear (Bitmap.mk (some (id, bs)) sz (some (id2, cs))) s).2
            = ndt_free id2 (clearList cs (ndt_free id s)) := by
          simp [xnd_bitmap_clear]
        refine ⟨by simp [xnd_bitmap_clear, Bitmap.size],
          by rw [hL, ndt_free_ctr, h.1, ndt_free_ctr], ?_⟩
        rw [hL, ndt_free_live, h.2, ndt_free_live, tsub_tsub, tsub_tsub]
        simp only [Bitmap.allocIds, dataIds]
        congr 1
        simp only [← Multiset.singleton_add]
        abel

/-- `clearList` accounting. -/
theorem clearList_spec : (cs : List Bitmap) → (s : AllocState) →
    (clearList cs s).ctr = s.ctr ∧
    (clearList cs s).live = s.live - allocIdsList cs
  | [], s => by simp [clearList, allocIdsList]
  | c :: cs, s => by
    have h1 := xnd_bitmap_clear_spec c s
    have h2 := clearList_spec cs (xnd_bitmap_clear c s).2
    exact ⟨by simp [clearList, h2.1, h1.2.1],
      by simp [clearList, allocIdsList, h2.2, h1.2.2, tsub_tsub]⟩
end

/-- Post-state contract shared by the builder functions: the id counter only
grows, every allocation attempt consumed in the window succeeded, and when
the call failed, the attempt sitting at the final counter is the failing one. -/
def InitPost (o : Nat → Bool) (s s2 : AllocState) (failed : Bool) : Prop :=
  s.ctr ≤ s2.ctr ∧ (∀ m, s.ctr ≤ m → m < s2.ctr → o m = true) ∧
  (failed = true → o s2.ctr = false)

theorem initPost_same (o : Nat → Bool) (s : AllocState) : InitPost o s s false :=
  ⟨le_refl _, fun _m h1 h2 => absurd (lt_of_le_of_lt h1 h2) (lt_irrefl _), fun h => by simp at h⟩

theorem initPost_fail_here (o : Nat → Bool) (s : AllocState) (h : o s.ctr = false) :
    InitPost o s s true :=
  ⟨le_refl _, fun _m h1 h2 => absurd (lt_of_le_of_lt h1 h2) (lt_irrefl _), fun _ => h⟩

theorem initPost_comp {o : Nat → Bool} {s s1 s2 : AllocState} {f : Bool}
    (h1 : InitPost o s s1 false) (h2 : InitPost o s1 s2 f) : InitPost o s s2 f := by
  refine ⟨le_trans h1.1 h2.1, fun m hm1 hm2 => ?_, h2.2.2⟩
  by_cases hc : m < s1.ctr
  · exact h1.2.1 m hm1 hc
  · exact h2.2.1 m (le_of_not_lt hc) hm2

theorem initPost_alloc {o : Nat → Bool} {s s1 : AllocState}
    (hctr : s1.ctr = s.ctr + 1) (ho : o s.ctr = true) : InitPost o s s1 false := by
  unfold InitPost
  refine ⟨by omega, fun m hm1 hm2 => ?_, by simp⟩
  have hm : m = s.ctr := by omega
  rw [hm]
  exact ho

theorem initPost_ctr_shift {o : Nat → Bool} {s s1 s2 : AllocState} {f : Bool}
    (h : InitPost o s s1 f) (hctr : s2.ctr = s1.ctr) : InitPost o s s2 f := by
  have h1 := h.1
  refine ⟨by omega, fun m hm1 hm2 => h.2.1 m hm1 (by omega), fun hf => by
    rw [hctr]; exact h.2.2 hf⟩

theorem bits_new_ok {o : Nat → Bool} {n : Nat} {s : AllocState} {id : Nat}
    {bs : List Nat} {s1 : AllocState}
    (h : bits_new o n s = (some (id, bs), s1)) :
    id = s.ctr ∧ bs = List.replicate (bitmap_size n) 0 ∧ o s.ctr = true ∧
    s1.ctr = s.ctr + 1 ∧ s1.live = s.ctr ::ₘ s.live := by
  by_cases ho : o s.ctr = true
  · simp only [bits_new, ndt_calloc, ho, if_true, Prod.mk.injEq, Option.some.injEq] at h
    obtain ⟨⟨h1, h2⟩, h3⟩ := h
    subst h1; subst h2; subst h3
    exact ⟨rfl, rfl, ho, rfl, rfl⟩
  · simp [bits_new, ndt_calloc, ho] at h

theorem bits_new_fail {o : Nat → Bool} {n : Nat} {s s1 : AllocState}
    (h : bits_new o n s = (none, s1)) : s1 = s ∧ o s.ctr = false := by
  by_cases ho : o s.ctr = true
  · simp [bits_new, ndt_calloc, ho] at h
  · have ho2 : o s.ctr = false := by simpa using ho
    simp [bits_new, ndt_calloc, ho2] at h
    exact ⟨h.symm, ho2⟩

theorem bitmap_array_new_ok {o : Nat → Bool} {n : Nat} {s : AllocState} {id : Nat}
    {arr : List Bitmap} {s1 : AllocState}
    (h : bitmap_array_new o n s = (some (id, arr), s1)) :
    id = s.ctr ∧ arr = List.replicate n emptyBitmap ∧ o s.ctr = true ∧
    s1.ctr = s.ctr + 1 ∧ s1.live = s.ctr ::ₘ s.live := by
  by_cases ho : o s.ctr = true
  · simp only [bitmap_array_new, ndt_calloc, ho, if_true, Prod.mk.injEq,
      Option.some.injEq] at h
    obtain ⟨⟨h1, h2⟩, h3⟩ := h
    subst h1; subst h2; subst h3
    exact ⟨rfl, rfl, ho, rfl, rfl⟩
  · simp [bitmap_array_new, ndt_calloc, ho] at h

theorem bitmap_array_new_fail {o : Nat → Bool} {n : Nat} {s s1 : AllocState}
    (h : bitmap_array_new o n s = (none, s1)) : s1 = s ∧ o s.ctr = false := by
  by_cases ho : o s.ctr = true
  · simp [bitmap_array_new, ndt_calloc, ho] at h
  · have ho2 : o s.ctr = false := by simpa using ho
    simp [bitmap_array_new, ndt_calloc, ho2] at h
    exact ⟨h.symm, ho2⟩

theorem allocIds_of_cleared {b : Bitmap} (hd : b.data = none) (hn : b.next = none) :
    b.allocIds = 0 := by
  obtain ⟨d, sz, nx⟩ := b
  simp only [Bitmap.data] at hd
  simp only [Bitmap.next] at hn
  subst hd; subst hn
  simp [Bitmap.allocIds, dataIds]

theorem cons_sub_cancel (a : Nat) (s : Multiset Nat) : (a ::ₘ s) - {a} = s := by
  rw [← Multiset.singleton_add, add_tsub_cancel_left]

/-- The Tuple and Record cases of `bitmap_init` are token-for-token identical
C code (bitmaps.c lines 113-135 vs 137-159). -/
theorem record_body_eq_tuple_body (o : Nat → Bool) (types : List Ndt) (nitems : Nat)
    (dataF : Option (Nat × List Nat)) (s : AllocState) :
    record_body o types nitems dataF s = tuple_body o types nitems dataF s := by
  unfold record_body tuple_body
  rfl

mutual
/-- Allocation accounting for `bitmap_init`: on success the live multiset
grows by exactly the returned tree's allocations; on failure it is restored
exactly, the returned node holds no buffer and no child array, and the
consumed oracle window pinpoints the failing attempt. -/
theorem bitmap_init_spec (o : Nat → Bool) (t : Ndt) (nitems : Nat) (s : AllocState) :
    (∀ b s2, bitmap_init o t nitems s = (.ok b, s2) →
      s2.live = b.allocIds + s.live ∧ InitPost o s s2 false) ∧
    (∀ bf s2, bitmap_init o t nitems s = (.error bf, s2) →
      s2.live = s.live ∧ bf.data = none ∧ bf.next = none ∧ InitPost o s s2 true) := by
  cases t with
  | FixedDim opt shape typ =>
    constructor
    · intro b s2 heq
      simp only [bitmap_init] at heq
      split at heq
      · exact (bitmap_init_spec o typ (nitems * shape) s).1 b s2 heq
      · simp only [Prod.mk.injEq, Except.ok.injEq] at heq
        obtain ⟨h1, h2⟩ := heq
        subst h1; subst h2
        exact ⟨by simp [allocIds_emptyBitmap], initPost_same o s⟩
    · intro bf s2 heq
      simp only [bitmap_init] at heq
      split at heq
      · exact (bitmap_init_spec o typ (nitems * shape) s).2 bf s2 heq
      · simp at heq
  | VarDim opt offsets typ =>
    have _hsz : sizeOf (ndt_dtype typ) ≤ sizeOf typ := sizeOf_ndt_dtype_le typ
    constructor
    · intro b s2 heq
      simp only [bitmap_init] at heq
      split at heq
      · exact (bitmap_init_spec o (ndt_dtype typ) (offsets.getLastD 0) s).1 b s2 heq
      · simp only [Prod.mk.injEq, Except.ok.injEq] at heq
        obtain ⟨h1, h2⟩ := heq
        subst h1; subst h2
        exact ⟨by simp [allocIds_emptyBitmap], initPost_same o s⟩
    · intro bf s2 heq
      simp only [bitmap_init] at heq
      split at heq
      · exact (bitmap_init_spec o (ndt_dtype typ) (offsets.getLastD 0) s).2 bf s2 heq
      · simp at heq
  | Scalar opt =>
    constructor
    · intro b s2 heq
      simp only [bitmap_init] at heq
      split at heq
      · rcases hbn : bits_new o nitems s with ⟨r, s1⟩
        rw [hbn] at heq
        cases r with
        | none => simp at heq
        | some db =>
          obtain ⟨id, bs⟩ := db
          have hb := bits_new_ok hbn
          simp at heq
          obtain ⟨h1, h2⟩ := heq
          subst h1; subst h2
          refine ⟨?_, initPost_alloc hb.2.2.2.1 hb.2.2.1⟩
          rw [hb.2.2.2.2, hb.1]
          simp [Bitmap.allocIds, dataIds, ← Multiset.singleton_add]
      · simp only [Prod.mk.injEq, Except.ok.injEq] at heq
        obtain ⟨h1, h2⟩ := heq
        subst h1; subst h2
        exact ⟨by simp [allocIds_emptyBitmap], initPost_same o s⟩
    · intro bf s2 heq
      simp only [bitmap_init] at heq
      split at heq
      · rcases hbn : bits_new o nitems s with ⟨r, s1⟩
        rw [hbn] at heq
        cases r with
        | none =>
          have hb := bits_new_fail hbn
          simp at heq
          obtain ⟨h1, h2⟩ := heq
          subst h1; subst h2
          refine ⟨by rw [hb.1], by simp [emptyBitmap, Bitmap.data],
            by simp [emptyBitmap, Bitmap.next], ?_⟩
          rw [hb.1]
          exact initPost_fail_here o s hb.2
        | some db => simp at heq
      · simp at heq
  | Other opt =>
    constructor
    · intro b s2 heq
      simp only [bitmap_init] at heq
      split at heq
      · rcases hbn : bits_new o nitems s with ⟨r, s1⟩
        rw [hbn] at heq
        cases r with
        | none => simp at heq
        | some db =>
          obtain ⟨id, bs⟩ := db
          have hb := bits_new_ok hbn
          simp at heq
          obtain ⟨h1, h2⟩ := heq
          subst h1; subst h2
          refine ⟨?_, initPost_alloc hb.2.2.2.1 hb.2.2.1⟩
          rw [hb.2.2.2.2, hb.1]
          simp [Bitmap.allocIds, dataIds, ← Multiset.singleton_add]
      · simp only [Prod.mk.injEq, Except.ok.injEq] at heq
        obtain ⟨h1, h2⟩ := heq
        subst h1; subst h2
        exact ⟨by simp [allocIds_emptyBitmap], initPost_same o s⟩
    · intro bf s2 heq
      simp only [bitmap_init] at heq
      split at heq
      · rcases hbn : bits_new o nitems s with ⟨r, s1⟩
        rw [hbn] at heq
        cases r with
        | none =>
          have hb := bits_new_fail hbn
          simp at heq
          obtain ⟨h1, h2⟩ := heq
          subst h1; subst h2
          refine ⟨by rw [hb.1], by simp [emptyBitmap, Bitmap.data],
            by simp [emptyBitmap, Bitmap.next], ?_⟩
          rw [hb.1]
          exact initPost_fail_here o s hb.2
        | some db => simp at heq
      · simp at heq
  | Tuple opt types =>
    constructor
    · intro b s2 heq
      simp only [bitmap_init] at heq
      split at heq
      · rcases hbn : bits_new o nitems s with ⟨r, s1⟩
        rw [hbn] at heq
        cases r with
        | none => simp at heq
        | some db =>
          obtain ⟨id, bs⟩ := db
          have hb := bits_new_ok hbn
          simp only [] at heq
          have hs := (tuple_body_spec o types nitems (some (id, bs)) s1).1 b s2 heq
          refine ⟨?_, initPost_comp (initPost_alloc hb.2.2.2.1 hb.2.2.1) hs.2.2.2.2⟩
          have e1 : dataIds (some (id, bs)) = {s.ctr} := by simp [dataIds, hb.1]
          have e2 : s1.live = {s.ctr} + s.live := by
            rw [hb.2.2.2.2, Multiset.singleton_add]
          have h1 := hs.1
          rw [e1, e2] at h1
          have h2 : b.allocIds + ({s.ctr} + s.live) = b.allocIds + s.live + {s.ctr} := by
            abel
          rw [h2] at h1
          exact add_right_cancel h1
      · split at heq
        · have hs := (tuple_body_spec o types nitems none s).1 b s2 heq
          refine ⟨?_, hs.2.2.2.2⟩
          have h1 := hs.1
          simpa [dataIds] using h1
        · simp only [Prod.mk.injEq, Except.ok.injEq] at heq
          obtain ⟨h1, h2⟩ := heq
          subst h1; subst h2
          exact ⟨by simp [allocIds_emptyBitmap], initPost_same o s⟩
    · intro bf s2 heq
      simp only [bitmap_init] at heq
      split at heq
      · rcases hbn : bits_new o nitems s with ⟨r, s1⟩
        rw [hbn] at heq
        cases r with
        | none =>
          have hb := bits_new_fail hbn
          simp at heq
          obtain ⟨h1, h2⟩ := heq
          subst h1; subst h2
          refine ⟨by rw [hb.1], by simp [emptyBitmap, Bitmap.data],
            by simp [emptyBitmap, Bitmap.next], ?_⟩
          rw [hb.1]
          exact initPost_fail_here o s hb.2
        | some db =>
          obtain ⟨id, bs⟩ := db
          have hb := bits_new_ok hbn
          simp only [] at heq
          have hs := (tuple_body_spec o types nitems (some (id, bs)) s1).2 bf s2 heq
          refine ⟨?_, hs.2.1, hs.2.2.1,
            initPost_comp (initPost_alloc hb.2.2.2.1 hb.2.2.1) hs.2.2.2⟩
          have e1 : dataIds (some (id, bs)) = {s.ctr} := by simp [dataIds, hb.1]
          have e2 : s1.live = {s.ctr} + s.live := by
            rw [hb.2.2.2.2, Multiset.singleton_add]
          rw [hs.1, e1, e2, add_tsub_cancel_left]
      · split at heq
        · have hs := (tuple_body_spec o types nitems none s).2 bf s2 heq
          refine ⟨?_, hs.2.1, hs.2.2.1, hs.2.2.2⟩
          simpa [dataIds] using hs.1
        · simp at heq
  | Record opt types =>
    constructor
    · intro b s2 heq
      simp only [bitmap_init] at heq
      split at heq
      · rcases hbn : bits_new o nitems s with ⟨r, s1⟩
        rw [hbn] at heq
        cases r with
        | none => simp at heq
        | some db =>
          obtain ⟨id, bs⟩ := db
          have hb := bits_new_ok hbn
          simp only [record_body_eq_tuple_body] at heq
          have hs := (tuple_body_spec o types nitems (some (id, bs)) s1).1 b s2 heq
          refine ⟨?_, initPost_comp (initPost_alloc hb.2.2.2.1 hb.2.2.1) hs.2.2.2.2⟩
          have e1 : dataIds (some (id, bs)) = {s.ctr} := by simp [dataIds, hb.1]
          have e2 : s1.live = {s.ctr} + s.live := by
            rw [hb.2.2.2.2, Multiset.singleton_add]
          have h1 := hs.1
          rw [e1, e2] at h1
          have h2 : b.allocIds + ({s.ctr} + s.live) = b.allocIds + s.live + {s.ctr} := by
            abel
          rw [h2] at h1
          exact add_right_cancel h1
      · split at heq
        · rw [record_body_eq_tuple_body] at heq
          have hs := (tuple_body_spec o types nitems none s).1 b s2 heq
          refine ⟨?_, hs.2.2.2.2⟩
          simpa [dataIds] using hs.1
        · simp only [Prod.mk.injEq, Except.ok.injEq] at heq
          obtain ⟨h1, h2⟩ := heq
          subst h1; subst h2
          exact ⟨by simp [allocIds_emptyBitmap], initPost_same o s⟩
    · intro bf s2 heq
      simp only [bitmap_init] at heq
      split at heq
      · rcases hbn : bits_new o nitems s with ⟨r, s1⟩
        rw [hbn] at heq
        cases r with
        | none =>
          have hb := bits_new_fail hbn
          simp at heq
          obtain ⟨h1, h2⟩ := heq
          subst h1; subst h2
          refine ⟨by rw [hb.1], by simp [emptyBitmap, Bitmap.data],
            by simp [emptyBitmap, Bitmap.next], ?_⟩
          rw [hb.1]
          exact initPost_fail_here o s hb.2
        | some db =>
          obtain ⟨id, bs⟩ := db
          have hb := bits_new_ok hbn
          simp only [record_body_eq_tuple_body] at heq
          have hs := (tuple_body_spec o types nitems (some (id, bs)) s1).2 bf s2 heq
          refine ⟨?_, hs.2.1, hs.2.2.1,
            initPost_comp (initPost_alloc hb.2.2.2.1 hb.2.2.1) hs.2.2.2⟩
          have e1 : dataIds (some (id, bs)) = {s.ctr} := by simp [dataIds, hb.1]
          have e2 : s1.live = {s.ctr} + s.live := by
            rw [hb.2.2.2.2, Multiset.singleton_add]
          rw [hs.1, e1, e2, add_tsub_cancel_left]
      · split at heq
        · rw [record_body_eq_tuple_body] at heq
          have hs := (tuple_body_spec o types nitems none s).2 bf s2 heq
          refine ⟨?_, hs.2.1, hs.2.2.1, hs.2.2.2⟩
          simpa [dataIds] using hs.1
        · simp at heq
termination_by (sizeOf t, 3, 0)

/-- Allocation accounting for the Tuple/Record case body. On entry the id in
`dataF` is already live; on success the node returned carries `dataF`, the
size `nitems * fieldCount`, and a child array; on failure exactly the id in
`dataF` has additionally been released. -/
theorem tuple_body_spec (o : Nat → Bool) (types : List Ndt) (nitems : Nat)
    (dataF : Option (Nat × List Nat)) (s : AllocState) :
    (∀ b s2, tuple_body o types nitems dataF s = (.ok b, s2) →
      s2.live + dataIds dataF = b.allocIds + s.live ∧ b.data = dataF ∧
      b.size = nitems * types.length ∧ (∃ p, b.next = some p) ∧
      InitPost o s s2 false) ∧
    (∀ bf s2, tuple_body o types nitems dataF s = (.error bf, s2) →
      s2.live = s.live - dataIds dataF ∧ bf.data = none ∧ bf.next = none ∧
      InitPost o s s2 true) := by
  constructor
  · intro b s2 heq
    unfold tuple_body at heq
    rcases han : bitmap_array_new o (nitems * types.length) s with ⟨r, s1⟩
    rw [han] at heq
    cases r with
    | none => simp at heq
    | some p =>
      obtain ⟨id, arr⟩ := p
      have ha := bitmap_array_new_ok han
      simp only [] at heq
      rcases hrep : init_reps o types nitems s1 with ⟨r2, s2x⟩
      rw [hrep] at heq
      cases r2 with
      | error part => simp at heq
      | ok cs =>
        simp at heq
        obtain ⟨h1, h2⟩ := heq
        subst h1; subst h2
        have hre := (init_reps_spec o types nitems s1).1 cs s2x hrep
        refine ⟨?_, rfl, rfl, ⟨(id, cs), rfl⟩,
          initPost_comp (initPost_alloc ha.2.2.2.1 ha.2.2.1) hre.2⟩
        rw [hre.1, ha.2.2.2.2, ha.1]
        simp only [Bitmap.allocIds, dataIds, ← Multiset.singleton_add]
        abel
  · intro bf s2 heq
    unfold tuple_body at heq
    rcases han : bitmap_array_new o (nitems * types.length) s with ⟨r, s1⟩
    rw [han] at heq
    cases r with
    | none =>
      have ha := bitmap_array_new_fail han
      have hcl := xnd_bitmap_clear_spec (Bitmap.mk dataF 0 none) s1
      simp at heq
      obtain ⟨h1, h2⟩ := heq
      subst h1; subst h2
      refine ⟨?_, by rw [hcl.1]; rfl, by rw [hcl.1]; rfl, ?_⟩
      · rw [hcl.2.2, ha.1]
        simp [Bitmap.allocIds, dataIds]
      · refine initPost_ctr_shift (initPost_fail_here o s ha.2) ?_
        rw [hcl.2.1, ha.1]
    | some p =>
      obtain ⟨id, arr⟩ := p
      have ha := bitmap_array_new_ok han
      simp only [] at heq
      rcases hrep : init_reps o types nitems s1 with ⟨r2, s2x⟩
      rw [hrep] at heq
      cases r2 with
      | ok cs => simp at heq
      | error part =>
        have hre := (init_reps_spec o types nitems s1).2 part s2x hrep
        have hcl := xnd_bitmap_clear_spec (Bitmap.mk dataF (nitems * types.length)
          (some (id, part ++ List.replicate (nitems * types.length - part.length) emptyBitmap))) s2x
        simp at heq
        obtain ⟨h1, h2⟩ := heq
        subst h1; subst h2
        refine ⟨?_, by rw [hcl.1]; rfl, by rw [hcl.1]; rfl, ?_⟩
        · rw [hcl.2.2, hre.1, ha.2.2.2.2, ha.1]
          simp only [Bitmap.allocIds, allocIdsList_append, allocIdsList_replicate,
            add_zero, ← Multiset.singleton_add]
          have hm : allocIdsList part + ({s.ctr} + s.live)
              = (allocIdsList part + {s.ctr}) + s.live := by abel
          have hs2 : dataIds dataF + ({s.ctr} + allocIdsList part)
              = (allocIdsList part + {s.ctr}) + dataIds dataF := by abel
          rw [hm, hs2, add_tsub_add_eq_tsub_left]
        · refine initPost_ctr_shift
            (initPost_comp (initPost_alloc ha.2.2.2.1 ha.2.2.1) hre.2) ?_
          rw [hcl.2.1]
termination_by (sizeOf types, 2, 0)

/-- Allocation accounting for the repetition loop. -/
theorem init_reps_spec (o : Nat → Bool) (types : List Ndt) (reps : Nat) (s : AllocState) :
    (∀ cs s2, init_reps o types reps s = (.ok cs, s2) →
      s2.live = allocIdsList cs + s.live ∧ InitPost o s s2 false) ∧
    (∀ part s2, init_reps o types reps s = (.error part, s2) →
      s2.live = allocIdsList part + s.live ∧ InitPost o s s2 true) := by
  cases reps with
  | zero =>
    constructor
    · intro cs s2 heq
      simp only [init_reps, Prod.mk.injEq, Except.ok.injEq] at heq
      obtain ⟨h1, h2⟩ := heq
      subst h1; subst h2
      exact ⟨by simp [allocIdsList], initPost_same o s⟩
    · intro part s2 heq
      simp [init_reps] at heq
  | succ r =>
    constructor
    · intro cs s2 heq
      simp only [init_reps] at heq
      rcases hf : init_fields o types s with ⟨rf, s1⟩
      rw [hf] at heq
      cases rf with
      | error part => simp at heq
      | ok row =>
        have hfs := (init_fields_spec o types s).1 row s1 hf
        simp only [] at heq
        rcases hrec : init_reps o types r s1 with ⟨rr, s2x⟩
        rw [hrec] at heq
        cases rr with
        | error part => simp at heq
        | ok rest =>
          have hrs := (init_reps_spec o types r s1).1 rest s2x hrec
          simp at heq
          obtain ⟨h1, h2⟩ := heq
          subst h1; subst h2
          refine ⟨?_, initPost_comp hfs.2 hrs.2⟩
          rw [hrs.1, hfs.1, allocIdsList_append]
          abel
    · intro part s2 heq
      simp only [init_reps] at heq
      rcases hf : init_fields o types s with ⟨rf, s1⟩
      rw [hf] at heq
      cases rf with
      | error pf =>
        have hfs := (init_fields_spec o types s).2 pf s1 hf
        simp at heq
        obtain ⟨h1, h2⟩ := heq
        subst h1; subst h2
        exact ⟨hfs.1, hfs.2⟩
      | ok row =>
        have hfs := (init_fields_spec o types s).1 row s1 hf
        simp only [] at heq
        rcases hrec : init_reps o types r s1 with ⟨rr, s2x⟩
        rw [hrec] at heq
        cases rr with
        | ok rest => simp at heq
        | error pr =>
          have hrs := (init_reps_spec o types r s1).2 pr s2x hrec
          simp at heq
          obtain ⟨h1, h2⟩ := heq
          subst h1; subst h2
          refine ⟨?_, initPost_comp hfs.2 hrs.2⟩
          rw [hrs.1, hfs.1, allocIdsList_append]
          abel
termination_by (sizeOf types, 1, reps)

/-- Allocation accounting for the field loop; a failed child contributes no
allocation (its own recursive call already cleared it). -/
theorem init_fields_spec (o : Nat → Bool) (types : List Ndt) (s : AllocState) :
    (∀ row s2, init_fields o types s = (.ok row, s2) →
      s2.live = allocIdsList row + s.live ∧ InitPost o s s2 false) ∧
    (∀ part s2, init_fields o types s = (.error part, s2) →
      s2.live = allocIdsList part + s.live ∧ InitPost o s s2 true) := by
  cases types with
  | nil =>
    constructor
    · intro row s2 heq
      simp only [init_fields, Prod.mk.injEq, Except.ok.injEq] at heq
      obtain ⟨h1, h2⟩ := heq
      subst h1; subst h2
      exact ⟨by simp [allocIdsList], initPost_same o s⟩
    · intro part s2 heq
      simp [init_fields] at heq
  | cons ty tys =>
    constructor
    · intro row s2 heq
      simp only [init_fields] at heq
      rcases hc : bitmap_init o ty 1 s with ⟨rc, s1⟩
      rw [hc] at heq
      cases rc with
      | error bf => simp at heq
      | ok c =>
        have hcs := (bitmap_init_spec o ty 1 s).1 c s1 hc
        simp only [] at heq
        rcases hrec : init_fields o tys s1 with ⟨rr, s2x⟩
        rw [hrec] at heq
        cases rr with
        | error part => simp at heq
        | ok rowx =>
          have hrs := (init_fields_spec o tys s1).1 rowx s2x hrec
          simp at heq
          obtain ⟨h1, h2⟩ := heq
          subst h1; subst h2
          refine ⟨?_, initPost_comp hcs.2 hrs.2⟩
          rw [hrs.1, hcs.1]
          simp only [allocIdsList]
          abel
    · intro part s2 heq
      simp only [init_fields] at heq
      rcases hc : bitmap_init o ty 1 s with ⟨rc, s1⟩
      rw [hc] at heq
      cases rc with
      | error bf =>
        have hcs := (bitmap_init_spec o ty 1 s).2 bf s1 hc
        simp at heq
        obtain ⟨h1, h2⟩ := heq
        subst h1; subst h2
        refine ⟨?_, hcs.2.2.2⟩
        rw [hcs.1]
        simp [allocIdsList, allocIds_of_cleared hcs.2.1 hcs.2.2.1]
      | ok c =>
        have hcs := (bitmap_init_spec o ty 1 s).1 c s1 hc
        simp only [] at heq
        rcases hrec : init_fields o tys s1 with ⟨rr, s2x⟩
        rw [hrec] at heq
        cases rr with
        | ok rowx => simp at heq
        | error partx =>
          have hrs := (init_fields_spec o tys s1).2 partx s2x hrec
          simp at heq
          obtain ⟨h1, h2⟩ := heq
          subst h1; subst h2
          refine ⟨?_, initPost_comp hcs.2 hrs.2⟩
          rw [hrs.1, hcs.1]
          simp only [allocIdsList]
          abel
termination_by (sizeOf types, 0, 0)
end

/-- Tags whose `bitmap_init` case allocates a child array. -/
def isProductTag : Ndt → Bool
  | .Tuple _ _ => true
  | .Record _ _ => true
  | .FixedDim _ _ _ => false
  | .VarDim _ _ _ => false
  | .Scalar _ => false
  | .Other _ => false

/-- State characterization of a successful build: the node owns a leaf buffer
iff the dtype (after stripping all dimensions) is optional, and owns a child
array iff the dtype is a Tuple/Record whose subtree has an optional node.  In
particular both can hold at once, exactly for an optional Tuple/Record dtype. -/
theorem bitmap_init_states (o : Nat → Bool) (t : Ndt) (nitems : Nat) (s : AllocState) :
    ∀ b s2, bitmap_init o t nitems s = (.ok b, s2) →
      b.data.isSome = ndt_is_optional (ndt_dtype t) ∧
      b.next.isSome = (isProductTag (ndt_dtype t) && ndt_subtree_is_optional (ndt_dtype t)) := by
  cases t with
  | FixedDim opt shape typ =>
    intro b s2 heq
    simp only [bitmap_init] at heq
    split at heq
    · simpa only [ndt_dtype] using bitmap_init_states o typ (nitems * shape) s b s2 heq
    · next hsub =>
      have hsub2 : ndt_subtree_is_optional (Ndt.FixedDim opt shape typ) = false := by
        simpa using hsub
      have hdt := ndt_subtree_dtype_false _ hsub2
      have hopt : ndt_is_optional (ndt_dtype (Ndt.FixedDim opt shape typ)) = false := by
        by_cases hc : ndt_is_optional (ndt_dtype (Ndt.FixedDim opt shape typ)) = true
        · rw [ndt_is_optional_imp_subtree _ hc] at hdt; simp at hdt
        · simpa using hc
      simp only [Prod.mk.injEq, Except.ok.injEq] at heq
      obtain ⟨h1, h2⟩ := heq
      subst h1; subst h2
      constructor
      · simp [emptyBitmap, Bitmap.data, hopt]
      · simp [emptyBitmap, Bitmap.next, hdt]
  | VarDim opt offsets typ =>
    have _hsz : sizeOf (ndt_dtype typ) ≤ sizeOf typ := sizeOf_ndt_dtype_le typ
    intro b s2 heq
    simp only [bitmap_init] at heq
    split at heq
    · have h := bitmap_init_states o (ndt_dtype typ) (offsets.getLastD 0) s b s2 heq
      rw [ndt_dtype_idem typ] at h
      simpa only [ndt_dtype] using h
    · next hsub =>
      have hsub2 : ndt_subtree_is_optional (Ndt.VarDim opt offsets typ) = false := by
        simpa using hsub
      have hdt := ndt_subtree_dtype_false _ hsub2
      have hopt : ndt_is_optional (ndt_dtype (Ndt.VarDim opt offsets typ)) = false := by
        by_cases hc : ndt_is_optional (ndt_dtype (Ndt.VarDim opt offsets typ)) = true
        · rw [ndt_is_optional_imp_subtree _ hc] at hdt; simp at hdt
        · simpa using hc
      simp only [Prod.mk.injEq, Except.ok.injEq] at heq
      obtain ⟨h1, h2⟩ := heq
      subst h1; subst h2
      constructor
      · simp [emptyBitmap, Bitmap.data, hopt]
      · simp [emptyBitmap, Bitmap.next, hdt]
  | Scalar opt =>
    intro b s2 heq
    simp only [bitmap_init] at heq
    split at heq
    · next hopt =>
      rcases hbn : bits_new o nitems s with ⟨r, s1⟩
      rw [hbn] at heq
      cases r with
      | none => simp at heq
      | some db =>
        simp at heq
        obtain ⟨h1, h2⟩ := heq
        subst h1; subst h2
        simp [Bitmap.data, Bitmap.next, ndt_dtype, ndt_is_optional, isProductTag, hopt]
    · next hopt =>
      simp only [Prod.mk.injEq, Except.ok.injEq] at heq
      obtain ⟨h1, h2⟩ := heq
      subst h1; subst h2
      have hopt2 : opt = false := by simpa using hopt
      simp only [ndt_dtype, ndt_is_optional, isProductTag]
      constructor
      · simp [emptyBitmap, Bitmap.data, hopt2]
      · simp [emptyBitmap, Bitmap.next]
  | Other opt =>
    intro b s2 heq
    simp only [bitmap_init] at heq
    split at heq
    · next hopt =>
      rcases hbn : bits_new o nitems s with ⟨r, s1⟩
      rw [hbn] at heq
      cases r with
      | none => simp at heq
      | some db =>
        simp at heq
        obtain ⟨h1, h2⟩ := heq
        subst h1; subst h2
        simp [Bitmap.data, Bitmap.next, ndt_dtype, ndt_is_optional, isProductTag, hopt]
    · next hopt =>
      simp only [Prod.mk.injEq, Except.ok.injEq] at heq
      obtain ⟨h1, h2⟩ := heq
      subst h1; subst h2
      have hopt2 : opt = false := by simpa using hopt
      simp only [ndt_dtype, ndt_is_optional, isProductTag]
      constructor
      · simp [emptyBitmap, Bitmap.data, hopt2]
      · simp [emptyBitmap, Bitmap.next]
  | Tuple opt types =>
    intro b s2 heq
    simp only [bitmap_init] at heq
    split at heq
    · next hopt =>
      rcases hbn : bits_new o nitems s with ⟨r, s1⟩
      rw [hbn] at heq
      cases r with
      | none => simp at heq
      | some db =>
        obtain ⟨id, bs⟩ := db
        simp only [] at heq
        have hs := (tuple_body_spec o types nitems (some (id, bs)) s1).1 b s2 heq
        obtain ⟨p, hp⟩ := hs.2.2.2.1
        rw [ndt_dtype]
        constructor
        · rw [hs.2.1]
          simp [ndt_is_optional, hopt]
        · rw [hp]
          simp [isProductTag, ndt_subtree_is_optional, hopt]
    · next hopt =>
      have hopt2 : opt = false := by simpa using hopt
      split at heq
      · next hsub =>
        have hs := (tuple_body_spec o types nitems none s).1 b s2 heq
        obtain ⟨p, hp⟩ := hs.2.2.2.1
        rw [ndt_dtype]
        constructor
        · rw [hs.2.1]
          simp [ndt_is_optional, hopt2]
        · rw [hp, hsub]
          simp [isProductTag]
      · next hsub =>
        have hsub2 : ndt_subtree_is_optional (Ndt.Tuple opt types) = false := by
          simpa using hsub
        simp only [Prod.mk.injEq, Except.ok.injEq] at heq
        obtain ⟨h1, h2⟩ := heq
        subst h1; subst h2
        rw [ndt_dtype]
        constructor
        · simp [emptyBitmap, Bitmap.data, ndt_is_optional, hopt2]
        · simp [emptyBitmap, Bitmap.next, hsub2]
  | Record opt types =>
    intro b s2 heq
    simp only [bitmap_init] at heq
    split at heq
    · next hopt =>
      rcases hbn : bits_new o nitems s with ⟨r, s1⟩
      rw [hbn] at heq
      cases r with
      | none => simp at heq
      | some db =>
        obtain ⟨id, bs⟩ := db
        simp only [record_body_eq_tuple_body] at heq
        have hs := (tuple_body_spec o types nitems (some (id, bs)) s1).1 b s2 heq
        obtain ⟨p, hp⟩ := hs.2.2.2.1
        rw [ndt_dtype]
        constructor
        · rw [hs.2.1]
          simp [ndt_is_optional, hopt]
        · rw [hp]
          simp [isProductTag, ndt_subtree_is_optional, hopt]
    · next hopt =>
      have hopt2 : opt = false := by simpa using hopt
      split at heq
      · next hsub =>
        rw [record_body_eq_tuple_body] at heq
        have hs := (tuple_body_spec o types nitems none s).1 b s2 heq
        obtain ⟨p, hp⟩ := hs.2.2.2.1
        rw [ndt_dtype]
        constructor
        · rw [hs.2.1]
          simp [ndt_is_optional, hopt2]
        · rw [hp, hsub]
          simp [isProductTag]
      · next hsub =>
        have hsub2 : ndt_subtree_is_optional (Ndt.Record opt types) = false := by
          simpa using hsub
        simp only [Prod.mk.injEq, Except.ok.injEq] at heq
        obtain ⟨h1, h2⟩ := heq
        subst h1; subst h2
        rw [ndt_dtype]
        constructor
        · simp [emptyBitmap, Bitmap.data, ndt_is_optional, hopt2]
        · simp [emptyBitmap, Bitmap.next, hsub2]
termination_by sizeOf t

/-- Each child produced by a successful field loop is the result of a
`bitmap_init` call on the corresponding field type with `nitems = 1`. -/
theorem init_fields_ok_shape (o : Nat → Bool) :
    ∀ (types : List Ndt) (s : AllocState) (row : List Bitmap) (s2 : AllocState),
      init_fields o types s = (.ok row, s2) →
      row.length = types.length ∧
      (∀ f (hf : f < types.length), ∃ s3 s4,
        bitmap_init o (types.get ⟨f, hf⟩) 1 s3 = (.ok (row.getD f emptyBitmap), s4))
  | [], s, row, s2, heq => by
    simp only [init_fields, Prod.mk.injEq, Except.ok.injEq] at heq
    obtain ⟨h1, h2⟩ := heq
    subst h1
    exact ⟨rfl, fun f hf => absurd hf (by simp)⟩
  | ty :: tys, s, row, s2, heq => by
    simp only [init_fields] at heq
    rcases hc : bitmap_init o ty 1 s with ⟨rc, s1⟩
    rw [hc] at heq
    cases rc with
    | error bf => simp at heq
    | ok c =>
      simp only [] at heq
      rcases hrec : init_fields o tys s1 with ⟨rr, s2x⟩
      rw [hrec] at heq
      cases rr with
      | error part => simp at heq
      | ok rowx =>
        have ih := init_fields_ok_shape o tys s1 rowx s2x hrec
        simp at heq
        obtain ⟨h1, h2⟩ := heq
        subst h1; subst h2
        refine ⟨by simp [ih.1], fun f hf => ?_⟩
        cases f with
        | zero => exact ⟨s, s1, by simpa using hc⟩
        | succ fp =>
          have hfp : fp < tys.length := by simpa using hf
          obtain ⟨s3, s4, hh⟩ := ih.2 fp hfp
          exact ⟨s3, s4, by simpa using hh⟩

/-- Each child produced by a successful repetition loop, at flattened index
`r * fieldCount + f`, is the result of a `bitmap_init` call on field type `f`
with `nitems = 1`; the loop produces `reps * fieldCount` children. -/
theorem init_reps_ok_shape (o : Nat → Bool) (types : List Ndt) :
    ∀ (reps : Nat) (s : AllocState) (cs : List Bitmap) (s2 : AllocState),
      init_reps o types reps s = (.ok cs, s2) →
      cs.length = reps * types.length ∧
      (∀ r f (hr : r < reps) (hf : f < types.length), ∃ s3 s4,
        bitmap_init o (types.get ⟨f, hf⟩) 1 s3
          = (.ok (cs.getD (r * types.length + f) emptyBitmap), s4))
  | 0, s, cs, s2, heq => by
    simp only [init_reps, Prod.mk.injEq, Except.ok.injEq] at heq
    obtain ⟨h1, h2⟩ := heq
    subst h1
    exact ⟨by simp, fun r f hr hf => absurd hr (by omega)⟩
  | rp + 1, s, cs, s2, heq => by
    simp only [init_reps] at heq
    rcases hf0 : init_fields o types s with ⟨rf, s1⟩
    rw [hf0] at heq
    cases rf with
    | error part => simp at heq
    | ok row =>
      simp only [] at heq
      rcases hrec : init_reps o types rp s1 with ⟨rr, s2x⟩
      rw [hrec] at heq
      cases rr with
      | error part => simp at heq
      | ok rest =>
        have hrow := init_fields_ok_shape o types s row s1 hf0
        have ih := init_reps_ok_shape o types rp s1 rest s2x hrec
        simp at heq
        obtain ⟨h1, h2⟩ := heq
        subst h1; subst h2
        constructor
        · simp only [List.length_append, hrow.1, ih.1]
          ring
        · intro r f hr hf
          cases r with
          | zero =>
            obtain ⟨s3, s4, hh⟩ := hrow.2 f hf
            refine ⟨s3, s4, ?_⟩
            have hidx : 0 * types.length + f = f := by omega
            rw [hidx, List.getD_eq_getElem?_getD,
              List.getElem?_append_left (by rw [hrow.1]; exact hf),
              ← List.getD_eq_getElem?_getD]
            exact hh
          | succ rpp =>
            have hrp : rpp < rp := by omega
            obtain ⟨s3, s4, hh⟩ := ih.2 rpp f hrp hf
            refine ⟨s3, s4, ?_⟩
            have hidx : (rpp + 1) * types.length + f
                = row.length + (rpp * types.length + f) := by
              rw [hrow.1]; ring
            rw [hidx, List.getD_eq_getElem?_getD,
              List.getElem?_append_right (Nat.le_add_right _ _)]
            simp only [Nat.add_sub_cancel_left]
            rw [← List.getD_eq_getElem?_getD]
            exact hh

theorem and_shift_ne_zero (a k : Nat) : ((a &&& (1 <<< k)) != 0) = a.testBit k := by
  rw [Nat.shiftLeft_eq, one_mul, Nat.and_two_pow]
  cases h : a.testBit k <;> simp [h, Nat.pos_iff_ne_zero]

theorem _xnd_is_valid_testBit (x : Xnd) :
    _xnd_is_valid x = (x.bitmap.bytes.getD (x.index / 8) 0).testBit (x.index % 8) := by
  rw [_xnd_is_valid, and_shift_ne_zero]

theorem bytes_mk_some (id sz : Nat) (bs : List Nat) (nx : Option (Nat × List Bitmap)) :
    (Bitmap.mk (some (id, bs)) sz nx).bytes = bs := rfl

theorem xnd_set_valid_bitmap (t : Ndt) (i id sz : Nat) (bytes : List Nat)
    (nx : Option (Nat × List Bitmap)) :
    (xnd_set_valid ⟨t, i, .mk (some (id, bytes)) sz nx⟩).bitmap
      = .mk (some (id, bytes.set (i / 8)
          ((bytes.getD (i / 8) 0) ||| (1 <<< (i % 8))))) sz nx := by
  simp [xnd_set_valid]

theorem xnd_set_valid_bitmap_none (t : Ndt) (i sz : Nat) (nx : Option (Nat × List Bitmap)) :
    (xnd_set_valid ⟨t, i, .mk none sz nx⟩).bitmap = .mk none sz nx := by
  simp [xnd_set_valid]

theorem is_valid_opt_eq (t : Ndt) (i : Nat) (b : Bitmap) (hopt : ndt_is_optional t = true) :
    xnd_is_valid ⟨t, i, b⟩ = (b.bytes.getD (i / 8) 0).testBit (i % 8) := by
  rw [xnd_is_valid]
  simp only [hopt, Bool.not_true, Bool.false_eq_true, if_false]
  exact _xnd_is_valid_testBit ⟨t, i, b⟩

theorem set_valid_keeps (t : Ndt) (i j : Nat) (b : Bitmap)
    (h : xnd_is_valid ⟨t, i, b⟩ = true) :
    xnd_is_valid ⟨t, i, (xnd_set_valid ⟨t, j, b⟩).bitmap⟩ = true := by
  by_cases hopt : ndt_is_optional t = true
  · obtain ⟨d, sz, nx⟩ := b
    cases d with
    | none => rw [xnd_set_valid_bitmap_none]; exact h
    | some p =>
      obtain ⟨id, bs⟩ := p
      rw [is_valid_opt_eq t i _ hopt, bytes_mk_some] at h
      rw [xnd_set_valid_bitmap, is_valid_opt_eq t i _ hopt, bytes_mk_some]
      by_cases hbl : j / 8 < bs.length
      · by_cases hbi : i / 8 = j / 8
        · rw [hbi, List.getD_eq_getElem?_getD, List.getElem?_set_eq_of_lt _ hbl]
          simp only [Option.getD_some]
          rw [Nat.testBit_or]
          rw [hbi] at h
          rw [h]
          simp
        · rw [List.getD_eq_getElem?_getD,
            List.getElem?_set_ne (show j / 8 ≠ i / 8 by omega),
            ← List.getD_eq_getElem?_getD]
          exact h
      · rw [List.set_eq_of_length_le (by omega)]
        exact h
  · simp [xnd_is_valid, hopt]

theorem setValidSeq_cons (t : Ndt) (b : Bitmap) (j : Nat) (js : List Nat) :
    setValidSeq t b (j :: js) = setValidSeq t ((xnd_set_valid ⟨t, j, b⟩).bitmap) js := by
  simp [setValidSeq]

/-- C7: `isNA` is the exact complement of `isValid` for optional positions;
for non-optional positions `isValid` is true and `isNA` false unconditionally
(for any bitmap and index, i.e. without consulting the bitmap). -/
theorem claim_C7_is_na_complement (x : Xnd) :
    (ndt_is_optional x.type = true → xnd_is_na x = !xnd_is_valid x) ∧
    (ndt_is_optional x.type = false → xnd_is_valid x = true ∧ xnd_is_na x = false) := by
  constructor
  · intro hopt
    simp [xnd_is_na, xnd_is_valid, hopt]
  · intro hopt
    simp [xnd_is_na, xnd_is_valid, hopt]

theorem claim_C7_witness :
    (xnd_is_na ⟨.Scalar true, 0, .mk (some (0, [0])) 0 none⟩
      = !xnd_is_valid ⟨.Scalar true, 0, .mk (some (0, [0])) 0 none⟩) ∧
    (xnd_is_valid ⟨.Scalar false, 5, emptyBitmap⟩ = true ∧
      xnd_is_na ⟨.Scalar false, 5, emptyBitmap⟩ = false) :=
  ⟨(claim_C7_is_na_complement ⟨.Scalar true, 0, .mk (some (0, [0])) 0 none⟩).1 rfl,
   (claim_C7_is_na_complement ⟨.Scalar false, 5, emptyBitmap⟩).2 rfl⟩

/-- C8: after `xnd_set_valid` at an in-range index `i` of an optional
position, `xnd_is_valid` at `i` is true; every other index `j ≠ i` reads the
same value as before, the buffer keeps its length, and every byte other than
byte `i / 8` is unchanged. -/
theorem claim_C8_set_valid_round_trip (t : Ndt) (i id sz : Nat) (bytes : List Nat)
    (nx : Option (Nat × List Bitmap))
    (hopt : ndt_is_optional t = true) (hin : i / 8 < bytes.length) :
    xnd_is_valid ⟨t, i, (xnd_set_valid ⟨t, i, .mk (some (id, bytes)) sz nx⟩).bitmap⟩
      = true ∧
    (∀ j, j ≠ i →
      xnd_is_valid ⟨t, j, (xnd_set_valid ⟨t, i, .mk (some (id, bytes)) sz nx⟩).bitmap⟩
        = xnd_is_valid ⟨t, j, .mk (some (id, bytes)) sz nx⟩) ∧
    ((xnd_set_valid ⟨t, i, .mk (some (id, bytes)) sz nx⟩).bitmap).bytes.length
      = bytes.length ∧
    (∀ kb, kb ≠ i / 8 →
      ((xnd_set_valid ⟨t, i, .mk (some (id, bytes)) sz nx⟩).bitmap).bytes.getD kb 0
        = bytes.getD kb 0) := by
  rw [xnd_set_valid_bitmap]
  refine ⟨?_, ?_, by simp [bytes_mk_some], ?_⟩
  · rw [is_valid_opt_eq t i _ hopt, bytes_mk_some,
      List.getD_eq_getElem?_getD, List.getElem?_set_eq_of_lt _ hin]
    simp only [Option.getD_some]
    rw [Nat.testBit_or, Nat.shiftLeft_eq, one_mul, Nat.testBit_two_pow_self]
    simp
  · intro j hj
    rw [is_valid_opt_eq t j _ hopt, is_valid_opt_eq t j _ hopt, bytes_mk_some,
      bytes_mk_some]
    by_cases hbi : j / 8 = i / 8
    · rw [hbi, List.getD_eq_getElem?_getD, List.getElem?_set_eq_of_lt _ hin]
      simp only [Option.getD_some]
      rw [Nat.testBit_or, Nat.shiftLeft_eq, one_mul,
        Nat.testBit_two_pow_of_ne (show i % 8 ≠ j % 8 by omega)]
      simp
    · rw [List.getD_eq_getElem?_getD,
        List.getElem?_set_ne (show i / 8 ≠ j / 8 by omega),
        ← List.getD_eq_getElem?_getD]
  · intro kb hkb
    rw [bytes_mk_some, List.getD_eq_getElem?_getD,
      List.getElem?_set_ne (show i / 8 ≠ kb by omega),
      ← List.getD_eq_getElem?_getD]

theorem claim_C8_witness :
    xnd_is_valid ⟨.Scalar true, 1,
        (xnd_set_valid ⟨.Scalar true, 1, .mk (some (0, [0])) 0 none⟩).bitmap⟩ = true ∧
    xnd_is_valid ⟨.Scalar true, 0,
        (xnd_set_valid ⟨.Scalar true, 1, .mk (some (0, [0])) 0 none⟩).bitmap⟩
      = xnd_is_valid ⟨.Scalar true, 0, .mk (some (0, [0])) 0 none⟩ ∧
    ((xnd_set_valid ⟨.Scalar true, 1, .mk (some (0, [0])) 0 none⟩).bitmap).bytes.length
      = 1 := by
  have h := claim_C8_set_valid_round_trip (.Scalar true) 1 0 0 [0] none rfl (by decide)
  exact ⟨h.1, h.2.1 0 (by decide), h.2.2.1⟩

/-- C10: `xnd_set_valid` only ever turns bits on (one read-modify-write OR),
so once `xnd_is_valid` holds at an index it keeps holding after any further
sequence of `xnd_set_valid` calls on the same node; the query functions
`xnd_is_valid`/`xnd_is_na` are pure and mutate nothing. -/
theorem claim_C10_validity_monotone (t : Ndt) (i : Nat) (b : Bitmap) (js : List Nat)
    (h : xnd_is_valid ⟨t, i, b⟩ = true) :
    xnd_is_valid ⟨t, i, setValidSeq t b js⟩ = true := by
  induction js generalizing b with
  | nil => simpa [setValidSeq] using h
  | cons j js ih =>
    rw [setValidSeq_cons]
    exact ih _ (set_valid_keeps t i j b h)

theorem claim_C10_witness :
    xnd_is_valid ⟨.Scalar true,  2,
      setValidSeq (.Scalar true)
        ((xnd_set_valid ⟨.Scalar true, 2, .mk (some (7, [0, 0])) 0 none⟩).bitmap)
        [0, 9, 2, 5]⟩ = true := by
  apply claim_C10_validity_monotone
  have h := claim_C8_set_valid_round_trip (.Scalar true) 2 7 0 [0, 0] none rfl (by decide)
  exact h.1

/-- C9: `bitmap_size n = (n + 7) / 8` is exactly `ceil(n / 8)` (the least `k`
with `n ≤ 8 * k`), it is total, and a fresh `bits_new` buffer has exactly
that many bytes, all zero (so every element defaults to NA). -/
theorem claim_C9_size_and_zero_fill (n : Nat) (o : Nat → Bool) (s : AllocState) :
    bitmap_size n = (n + 7) / 8 ∧
    n ≤ 8 * bitmap_size n ∧
    (∀ k, n ≤ 8 * k → bitmap_size n ≤ k) ∧
    (∀ id bs s1, bits_new o n s = (some (id, bs), s1) →
      bs.length = bitmap_size n ∧ ∀ y ∈ bs, y = 0) := by
  refine ⟨rfl, by unfold bitmap_size; omega,
    fun k hk => by unfold bitmap_size; omega, fun id bs s1 h => ?_⟩
  have hb := bits_new_ok h
  rw [hb.2.1]
  exact ⟨List.length_replicate _ _, fun y hy => List.eq_of_mem_replicate hy⟩

theorem claim_C9_witness :
    ([0, 0] : List Nat).length = bitmap_size 9 ∧ (∀ y ∈ ([0, 0] : List Nat), y = 0) :=
  (claim_C9_size_and_zero_fill 9 (fun _ => true) ⟨0, 0⟩).2.2.2 0 [0, 0] ⟨1, {0}⟩ rfl

/-- C6: a type whose subtree has no optional node builds to the fresh Empty
node, succeeds, and performs no allocation at all (the allocator state is
returned untouched). -/
theorem claim_C6_zero_cost (o : Nat → Bool) (t : Ndt) (nitems : Nat)
    (s : AllocState) (h : ndt_subtree_is_optional t = false) :
    bitmap_init o t nitems s = (.ok emptyBitmap, s) := by
  cases t with
  | FixedDim opt shape typ => simp [bitmap_init, h]
  | VarDim opt offsets typ => simp [bitmap_init, h]
  | Scalar opt =>
    have h2 : opt = false := by simpa [ndt_subtree_is_optional] using h
    simp [bitmap_init, h2]
  | Other opt =>
    have h2 : opt = false := by simpa [ndt_subtree_is_optional] using h
    simp [bitmap_init, h2]
  | Tuple opt types =>
    have h2 := h
    simp only [ndt_subtree_is_optional, Bool.or_eq_false_iff] at h2
    simp [bitmap_init, h2.1, h2.2, ndt_subtree_is_optional]
  | Record opt types =>
    have h2 := h
    simp only [ndt_subtree_is_optional, Bool.or_eq_false_iff] at h2
    simp [bitmap_init, h2.1, h2.2, ndt_subtree_is_optional]

theorem claim_C6_witness :
    bitmap_init (fun _ => true) (.FixedDim false 3 (.Scalar false)) 5 ⟨0, 0⟩
      = (.ok emptyBitmap, ⟨0, 0⟩) :=
  claim_C6_zero_cost (fun _ => true) (.FixedDim false 3 (.Scalar false)) 5 ⟨0, 0⟩
    (by simp [ndt_subtree_is_optional])

/-- C4 (amended): a FixedDim with optional subtree delegates to its element
type with `nitems * shape` on the same node; a VarDim with optional subtree
delegates to `ndt_dtype` — the dtype after stripping all dimensions, which is
the element type only when that element type is not itself a dimension —
with `n` = the last cumulative offset, on the same node. -/
theorem claim_C4_amended_dim_delegation (o : Nat → Bool) (nitems : Nat) (s : AllocState) :
    (∀ opt shape typ, ndt_subtree_is_optional (.FixedDim opt shape typ) = true →
      bitmap_init o (.FixedDim opt shape typ) nitems s
        = bitmap_init o typ (nitems * shape) s) ∧
    (∀ opt offsets typ, offsets ≠ ([] : List Nat) →
      ndt_subtree_is_optional (.VarDim opt offsets typ) = true →
      bitmap_init o (.VarDim opt offsets typ) nitems s
        = bitmap_init o (ndt_dtype typ) (offsets.getLastD 0) s) := by
  constructor
  · intro opt shape typ h
    simp only [bitmap_init]
    rw [if_pos h]
  · intro opt offsets typ hne h
    simp only [bitmap_init]
    rw [if_pos h]

/-- C4 counterexample: for a VarDim whose element type is itself a VarDim,
the code recurses on the dtype with the outer offsets' last entry, not on the
element type; the two runs produce different leaf sizes (1 byte vs 2 bytes). -/
theorem claim_C4_counterexample :
    bitmap_init (fun _ => true)
        (.VarDim false [0, 2] (.VarDim false [0, 3, 9] (.Scalar true))) 1 ⟨0, 0⟩
      ≠ bitmap_init (fun _ => true) (.VarDim false [0, 3, 9] (.Scalar true)) 2 ⟨0, 0⟩ := by
  simp [bitmap_init, bits_new, ndt_calloc, bitmap_size, ndt_subtree_is_optional,
    anySubtreeOptional, ndt_dtype, emptyBitmap]

theorem claim_C4_witness :
    (bitmap_init (fun _ => true) (.FixedDim false 3 (.Scalar true)) 1 ⟨0, 0⟩
      = bitmap_init (fun _ => true) (.Scalar true) (1 * 3) ⟨0, 0⟩) ∧
    (bitmap_init (fun _ => true) (.VarDim false [0, 2, 5] (.Scalar true)) 1 ⟨0, 0⟩
      = bitmap_init (fun _ => true) (ndt_dtype (.Scalar true)) ([0, 2, 5].getLastD 0) ⟨0, 0⟩) :=
  ⟨(claim_C4_amended_dim_delegation (fun _ => true) 1 ⟨0, 0⟩).1 false 3 (.Scalar true)
      (by simp [ndt_subtree_is_optional]),
   (claim_C4_amended_dim_delegation (fun _ => true) 1 ⟨0, 0⟩).2 false [0, 2, 5] (.Scalar true)
      (by simp) (by simp [ndt_subtree_is_optional])⟩

/-- C2 (amended): after a successful build the node owns a leaf buffer iff
the dtype of the built type is optional, and a child array iff that dtype is
a Tuple/Record with optional subtree; hence exactly one of the three states
Empty/Leaf/Branch holds except when the dtype is an optional Tuple/Record,
in which case the node owns both at once. -/
theorem claim_C2_amended_state_exclusivity (o : Nat → Bool) (t : Ndt) (nitems : Nat)
    (s : AllocState) (b : Bitmap) (s2 : AllocState)
    (h : bitmap_init o t nitems s = (.ok b, s2)) :
    b.data.isSome = ndt_is_optional (ndt_dtype t) ∧
    b.next.isSome = (isProductTag (ndt_dtype t) && ndt_subtree_is_optional (ndt_dtype t)) ∧
    ((ndt_is_optional (ndt_dtype t) && isProductTag (ndt_dtype t)) = false →
      b.data = none ∨ b.next = none) := by
  have hc := bitmap_init_states o t nitems s b s2 h
  refine ⟨hc.1, hc.2, fun hno => ?_⟩
  by_cases hd : b.data.isSome = true
  · right
    have hopt : ndt_is_optional (ndt_dtype t) = true := by rw [← hc.1]; exact hd
    have hp : isProductTag (ndt_dtype t) = false := by
      rcases Bool.eq_false_or_eq_true (isProductTag (ndt_dtype t)) with hq | hq
      · rw [hopt, hq] at hno; simp at hno
      · exact hq
    have hnx : b.next.isSome = false := by rw [hc.2, hp]; simp
    cases hb2 : b.next with
    | none => rfl
    | some p => rw [hb2] at hnx; simp at hnx
  · left
    cases hb2 : b.data with
    | none => rfl
    | some p => rw [hb2] at hd; simp at hd

/-- C2 counterexample: building the concrete optional-tuple type
`?(Scalar)` succeeds and yields a node owning both a leaf buffer (for the
tuple's own validity bit) and a child array — Leaf and Branch hold at once. -/
theorem claim_C2_counterexample :
    (bitmap_init (fun _ => true) (.Tuple true [.Scalar false]) 1 ⟨0, 0⟩).1
        = .ok (.mk (some (0, [0])) 1 (some (1, [.mk none 0 none]))) ∧
    (Bitmap.mk (some (0, [0])) 1 (some (1, [.mk none 0 none]))).data.isSome = true ∧
    (Bitmap.mk (some (0, [0])) 1 (some (1, [.mk none 0 none]))).next.isSome = true := by
  refine ⟨?_, rfl, rfl⟩
  simp [bitmap_init, tuple_body, init_reps, init_fields, bits_new, bitmap_array_new,
    ndt_calloc, bitmap_size, ndt_subtree_is_optional, anySubtreeOptional, emptyBitmap]

theorem claim_C2_witness :
    (Bitmap.mk none 1 (some (0, [Bitmap.mk (some (1, [0])) 0 none]))).data.isSome
        = ndt_is_optional (ndt_dtype (.Tuple false [.Scalar true])) ∧
    (Bitmap.mk none 1 (some (0, [Bitmap.mk (some (1, [0])) 0 none]))).next.isSome
        = (isProductTag (ndt_dtype (.Tuple false [.Scalar true]))
           && ndt_subtree_is_optional (ndt_dtype (.Tuple false [.Scalar true]))) ∧
    ((ndt_is_optional (ndt_dtype (.Tuple false [.Scalar true]))
        && isProductTag (ndt_dtype (.Tuple false [.Scalar true]))) = false →
      (Bitmap.mk none 1 (some (0, [Bitmap.mk (some (1, [0])) 0 none]))).data = none ∨
      (Bitmap.mk none 1 (some (0, [Bitmap.mk (some (1, [0])) 0 none]))).next = none) :=
  claim_C2_amended_state_exclusivity (fun _ => true) (.Tuple false [.Scalar true]) 1
    ⟨0, 0⟩ (Bitmap.mk none 1 (some (0, [Bitmap.mk (some (1, [0])) 0 none]))) ⟨2, {1, 0}⟩
    (by simp [bitmap_init, tuple_body, init_reps, init_fields, bits_new, bitmap_array_new,
      ndt_calloc, bitmap_size, ndt_subtree_is_optional, anySubtreeOptional, emptyBitmap])

/-- C5 (amended): the destructor frees the leaf buffer if present,
recursively destroys every child and frees the array (exactly the tree's
allocations leave the live multiset), nulls `data` and `next` so the node
owns no storage, is total, and is idempotent; however it leaves the `size`
field untouched, so a cleared Branch node is not byte-for-byte the fresh
all-zero state a node has before build. -/
theorem claim_C5_amended_destructor (b : Bitmap) (s : AllocState) :
    (xnd_bitmap_clear b s).1 = Bitmap.mk none b.size none ∧
    (xnd_bitmap_clear b s).2.live = s.live - b.allocIds ∧
    (xnd_bitmap_clear b s).2.ctr = s.ctr ∧
    xnd_bitmap_clear (xnd_bitmap_clear b s).1 (xnd_bitmap_clear b s).2
      = ((xnd_bitmap_clear b s).1, (xnd_bitmap_clear b s).2) := by
  have h := xnd_bitmap_clear_spec b s
  refine ⟨h.1, h.2.2, h.2.1, ?_⟩
  rw [h.1]
  simp [xnd_bitmap_clear]

/-- C5 counterexample: clearing a Branch node (here one produced by a build
of `?(Scalar)`) does not return it to the fresh state a node has before
build: `size` keeps its old value 1 instead of 0. -/
theorem claim_C5_counterexample :
    (xnd_bitmap_clear (.mk (some (0, [0])) 1 (some (1, [.mk none 0 none])))
        ⟨2, {1, 0}⟩).1 ≠ emptyBitmap := by
  simp [xnd_bitmap_clear, clearList, ndt_free, emptyBitmap]

/-- C1: rollback under allocation failure.  For every type and every oracle
(i.e. every point at which an allocation primitive can fail, at any
recursion depth): if the top-level build returns `OutOfMemory` (`.error`),
the live multiset equals exactly the one before the call — every buffer and
child array allocated before the failure has been released — and the root
node holds no buffer and no child array; moreover the final counter is the
failing attempt.  Conversely a successful build consumed only succeeding
attempts, so a failure injected at any consumed attempt forces the error
return. -/
theorem claim_C1_rollback (o : Nat → Bool) (t : Ndt) (s : AllocState) :
    (∀ bf s2, xnd_bitmap_init o t s = (.error bf, s2) →
      s2.live = s.live ∧ bf.data = none ∧ bf.next = none ∧ o s2.ctr = false) ∧
    (∀ b s2, xnd_bitmap_init o t s = (.ok b, s2) →
      ∀ m, s.ctr ≤ m → m < s2.ctr → o m = true) := by
  constructor
  · intro bf s2 h
    have hs := (bitmap_init_spec o t 1 s).2 bf s2 h
    exact ⟨hs.1, hs.2.1, hs.2.2.1, hs.2.2.2.2.2 rfl⟩
  · intro b s2 h
    exact ((bitmap_init_spec o t 1 s).1 b s2 h).2.2.1

theorem claim_C1_witness :
    ((⟨2, 0⟩ : AllocState).live = (⟨0, 0⟩ : AllocState).live ∧
      (Bitmap.mk none 2 none).data = none ∧ (Bitmap.mk none 2 none).next = none ∧
      (fun m => !(m == 2)) (⟨2, (0 : Multiset Nat)⟩ : AllocState).ctr = false) ∧
    (fun _ : Nat => true) 1 = true := by
  constructor
  · exact (claim_C1_rollback (fun m => !(m == 2))
      (.Tuple false [.Scalar true, .Scalar true]) ⟨0, 0⟩).1 (Bitmap.mk none 2 none) ⟨2, 0⟩
      (by simp [xnd_bitmap_init, bitmap_init, tuple_body, init_reps, init_fields,
        bits_new, bitmap_array_new, ndt_calloc, bitmap_size, ndt_subtree_is_optional,
        anySubtreeOptional, emptyBitmap, xnd_bitmap_clear, clearList, ndt_free])
  · exact (claim_C1_rollback (fun _ => true) (.Tuple false [.Scalar true]) ⟨0, 0⟩).2
      (Bitmap.mk none 1 (some (0, [Bitmap.mk (some (1, [0])) 0 none]))) ⟨2, {1, 0}⟩
      (by simp [xnd_bitmap_init, bitmap_init, tuple_body, init_reps, init_fields,
        bits_new, bitmap_array_new, ndt_calloc, bitmap_size, ndt_subtree_is_optional,
        anySubtreeOptional, emptyBitmap]) 1 (by decide) (by decide)

/-- A successful Tuple/Record body yields exactly the node
`{dataF, nitems * fieldCount, children}` with the children produced by the
repetition loop. -/
theorem tuple_body_ok_children {o : Nat → Bool} {types : List Ndt} {nitems : Nat}
    {dataF : Option (Nat × List Nat)} {s : AllocState} {b : Bitmap} {s2 : AllocState}
    (heq : tuple_body o types nitems dataF s = (.ok b, s2)) :
    ∃ id cs s1, b = .mk dataF (nitems * types.length) (some (id, cs)) ∧
      init_reps o types nitems s1 = (.ok cs, s2) := by
  unfold tuple_body at heq
  rcases han : bitmap_array_new o (nitems * types.length) s with ⟨r, s1⟩
  rw [han] at heq
  cases r with
  | none => simp at heq
  | some p =>
    obtain ⟨id, arr⟩ := p
    simp only [] at heq
    rcases hrep : init_reps o types nitems s1 with ⟨r2, s2x⟩
    rw [hrep] at heq
    cases r2 with
    | error part => simp at heq
    | ok cs =>
      simp at heq
      obtain ⟨h1, h2⟩ := heq
      subst h1; subst h2
      exact ⟨id, cs, s1, rfl, hrep⟩

/-- C3: a successful build of a Tuple type with optional subtree owns a child
array of exactly `nitems * fieldCount` nodes (`size` set accordingly), and
the child at flattened index `r * fieldCount + f` is the result of running
the build algorithm on field type `f` with `nitems = 1`; moreover the
algorithm treats Tuple and Record identically. -/
theorem claim_C3_product_children (o : Nat → Bool) (opt : Bool) (types : List Ndt)
    (nitems : Nat) (s : AllocState) (b : Bitmap) (s2 : AllocState)
    (hsub : ndt_subtree_is_optional (.Tuple opt types) = true)
    (hn : 1 ≤ nitems)
    (heq : bitmap_init o (.Tuple opt types) nitems s = (.ok b, s2)) :
    (∃ id cs, b.next = some (id, cs) ∧ b.size = nitems * types.length ∧
      cs.length = nitems * types.length ∧
      (∀ r f (hr : r < nitems) (hf : f < types.length), ∃ s3 s4,
        bitmap_init o (types.get ⟨f, hf⟩) 1 s3
          = (.ok (cs.getD (r * types.length + f) emptyBitmap), s4))) ∧
    (∀ (o2 : Nat → Bool) (opt2 : Bool) (types2 : List Ndt) (nitems2 : Nat)
        (s3 : AllocState),
      bitmap_init o2 (.Tuple opt2 types2) nitems2 s3
        = bitmap_init o2 (.Record opt2 types2) nitems2 s3) := by
  constructor
  · simp only [bitmap_init] at heq
    split at heq
    · rcases hbn : bits_new o nitems s with ⟨r, s1⟩
      rw [hbn] at heq
      cases r with
      | none => simp at heq
      | some db =>
        simp only [] at heq
        obtain ⟨id, cs, s1x, hb, hrep⟩ := tuple_body_ok_children heq
        subst hb
        have hsh := init_reps_ok_shape o types nitems s1x cs s2 hrep
        exact ⟨id, cs, rfl, rfl, hsh.1, hsh.2⟩
    · obtain ⟨id, cs, s1x, hb, hrep⟩ := tuple_body_ok_children heq
      subst hb
      have hsh := init_reps_ok_shape o types nitems s1x cs s2 hrep
      exact ⟨id, cs, rfl, rfl, hsh.1, hsh.2⟩
  · intro o2 opt2 types2 nitems2 s3
    simp only [bitmap_init, ndt_subtree_is_optional, record_body_eq_tuple_body]

theorem claim_C3_witness :
    (Bitmap.mk none 2 (some (0, [Bitmap.mk (some (1, [0])) 0 none,
        Bitmap.mk (some (2, [0])) 0 none]))).size = 2 * 1 ∧
    bitmap_init (fun _ => true) (.Tuple true ([] : List Ndt)) 3 ⟨0, 0⟩
      = bitmap_init (fun _ => true) (.Record true ([] : List Ndt)) 3 ⟨0, 0⟩ := by
  have h := claim_C3_product_children (fun _ => true) false [.Scalar true] 2 ⟨0, 0⟩
    (Bitmap.mk none 2 (some (0, [Bitmap.mk (some (1, [0])) 0 none,
      Bitmap.mk (some (2, [0])) 0 none]))) ⟨3, {2, 1, 0}⟩
    (by simp [ndt_subtree_is_optional, anySubtreeOptional]) (by omega)
    (by simp [bitmap_init, tuple_body, init_reps, init_fields, bits_new,
      bitmap_array_new, ndt_calloc, bitmap_size, ndt_subtree_is_optional,
      anySubtreeOptional, emptyBitmap])
  obtain ⟨id, cs, h1, h2, h3, h4⟩ := h.1
  exact ⟨h2, h.2 (fun _ => true) true [] 3 ⟨0, 0⟩⟩
